import Mathlib

/-!
Shallow embedding of the pipeline runner and step lifecycle of the `art`
repository (files `src/art/experiment/Experiment.py` and
`src/art/step/step.py`).

Python dictionaries are modelled as association lists with
overwrite-in-place insertion (the semantics of `d[k] = v`), Python
exceptions as `Except` values, and the external JSON result store as an
association list keyed by `(step_id, step_name)`.  The externally supplied
pieces (the step-specific work `do`, the source-code hash from
`inspect.getsource` or `model.get_hash()`, and the check objects) are
fields of the embedded structures: `doFn` is the effect of `do` on the
results dictionary (returning the updated dictionary and, optionally, the
message of a raised exception), `currentHash` is the value `get_hash`
returns during the current run, and a check is a function from a step to
its reported result.
-/

/-- A Python value stored in a results dictionary: a string or a number.
Only equality of such values matters to the runner (the `hash` entry). -/
inductive PyVal
  | str : String → PyVal
  | num : Int → PyVal
  deriving DecidableEq, Repr

/-- A results dictionary: keys to values, insertion-ordered. -/
abbrev RMap := List (String × PyVal)

/-- The project state mapping, flattened: a key is the pair
(model name, name_with_id) and the value is a results snapshot.  This is
`ArtProjectState.step_states`, a nested defaultdict in the source. -/
abbrev StepStates := List ((String × String) × RMap)

/-- The external JSON result store, keyed by (step_id, step_name).  This is
the observable content of `JSONStepSaver`. -/
abbrev Store := List ((String × String) × RMap)

/-- Lookup in an association list, first match wins (Python dict access). -/
def assocFind? {α β : Type} [DecidableEq α] : List (α × β) → α → Option β
  | [], _ => none
  | (k, v) :: rest, q => if k = q then some v else assocFind? rest q

/-- Overwrite-or-append insertion (Python `d[k] = v`): an existing key
keeps its position, a new key goes to the end. -/
def assocSet {α β : Type} [DecidableEq α] : List (α × β) → α → β → List (α × β)
  | [], k, v => [(k, v)]
  | (k0, v0) :: rest, k, v =>
    if k0 = k then (k, v) :: rest else (k0, v0) :: assocSet rest k v

/-- Which concrete subclass a step instance belongs to: `Step` itself or
`ModelStep` (which carries the class name of its `ArtModule`). -/
inductive StepKind
  | plain
  | model (modelName : String)
  deriving DecidableEq, Repr

/-- A step object: its registration index (`self.idx`, an arbitrary Python
int), its name, its in-memory results dictionary, its subclass, the value
its `get_hash` returns during the current run, and the effect of its
abstract `do` method on the results dictionary (second component: the
message of the exception `do` raises, if it raises). -/
structure Step where
  idx : Int
  name : String
  results : RMap
  kind : StepKind
  currentHash : String
  doFn : StepStates → RMap → RMap × Option String

/-- `Step.set_step_id`: store the given index. -/
def Step.set_step_id (s : Step) (i : Int) : Step :=
  { s with idx := i }

/-- `Step.get_model_name` and its `ModelStep` override: empty for a plain
step, the model class name for a model step. -/
def Step.get_model_name (s : Step) : String :=
  match s.kind with
  | .plain => ""
  | .model m => m

/-- `Step.get_step_id` and its `ModelStep` override: the plain version is
the index as a string; the model version prefixes the model name when that
name is nonempty. -/
def Step.get_step_id (s : Step) : String :=
  match s.kind with
  | .plain => toString s.idx
  | .model _ =>
    if s.get_model_name ≠ "" then s.get_model_name ++ "_" ++ toString s.idx
    else toString s.idx

/-- `Step.get_name_with_id`: index, underscore, name (not overridden). -/
def Step.get_name_with_id (s : Step) : String :=
  toString s.idx ++ "_" ++ s.name

/-- `Step.get_full_step_name`: step id, underscore, name. -/
def Step.get_full_step_name (s : Step) : String :=
  s.get_step_id ++ "_" ++ s.name

/-- `Step.get_hash` (and the `ModelStep` override delegating to the
model): the externally computed digest, a field in this embedding. -/
def Step.get_hash (s : Step) : String :=
  s.currentHash

/-- `Step.add_result`: `self.results[name] = value`. -/
def Step.add_result (s : Step) (name : String) (value : PyVal) : Step :=
  { s with results := assocSet s.results name value }

/-- `Step.get_results`: return the results dictionary. -/
def Step.get_results (s : Step) : RMap :=
  s.results

/-- `Step.was_run`: the store has an entry under (step_id, name). -/
def Step.was_run (s : Step) (store : Store) : Bool :=
  (assocFind? store (s.get_step_id, s.name)).isSome

/-- `Step.load_results`: replace the in-memory results with the stored
ones; `none` models the `FileNotFoundError` the loader raises when the
store has no entry. -/
def Step.load_results (s : Step) (store : Store) : Option Step :=
  (assocFind? store (s.get_step_id, s.name)).map fun r => { s with results := r }

/-- The result a check reports: `is_positive` flag and an error text. -/
structure CheckResult where
  is_positive : Bool
  error : String

/-- A check object, reduced to its `check(step)` method. -/
abbrev Check := Step → CheckResult

/-- One entry of `ArtProject.steps`: the dict
`{"step": step, "checks": checks, "skipped_metrics": skipped_metrics}`. -/
structure StepRecord where
  step : Step
  checks : List Check
  skipped_metrics : List String

/-- The Python exceptions the runner can observe. -/
inductive PyErr
  | keyError (key : String)
  | fileNotFound
  | stepError (msg : String)
  deriving DecidableEq, Repr

/-- `ArtProject.check_checks`: raise on the first check whose result is
not positive, with the message built from the step name and the reported
reason. -/
def check_checks (s : Step) : List Check → Except String Unit
  | [] => .ok ()
  | c :: rest =>
    let result := c s
    if result.is_positive then check_checks s rest
    else .error ("Check failed for step: " ++ s.name ++ ". Reason: " ++ result.error)

/-- `ArtProject.check_if_must_be_run`: if the step was never persisted,
rerun; otherwise load the stored results, swallow any check failure into
a rerun verdict, and otherwise compare the current hash against the
stored `hash` entry (a missing entry raises `KeyError`).  Returns the
verdict together with the step object as mutated by `load_results`. -/
def check_if_must_be_run (store : Store) (step : Step) (checks : List Check) :
    Except PyErr (Bool × Step) :=
  if step.was_run store = false then .ok (true, step)
  else
    match step.load_results store with
    | none => .error PyErr.fileNotFound
    | some step =>
      match check_checks step checks with
      | .error _ => .ok (true, step)
      | .ok _ =>
        match assocFind? step.results "hash" with
        | none => .error (PyErr.keyError "hash")
        | some step_saved_hash =>
          -- model_changed is True when the current hash differs from the
          -- saved one; return the verdict model_changed
          if PyVal.str step.get_hash = step_saved_hash then .ok (false, step)
          else .ok (true, step)

/-- `Step.__call__` and `ModelStep.__call__`: run `do` on the current
results, then save the results to the store under (step_id, name) —
but only when `do` did not raise; a raise propagates before the save
statement is reached.  (The `ModelStep` version additionally wires the
metric calculator into the model, which has no observable effect here.)
Returns the mutated step, the resulting store, and the raised error if
any. -/
def stepCall (store : Store) (previous_states : StepStates) (step : Step) :
    Step × Store × Option PyErr :=
  let doOut := step.doFn previous_states step.results
  let step := { step with results := doOut.1 }
  match doOut.2 with
  | some msg => (step, store, some (PyErr.stepError msg))
  | none => (step, assocSet store (step.get_step_id, step.name) step.results, none)

/-- One entry of the `steps_status` report dictionary (the dataclass
`StepStatus`); `results` is `none` for the `Not run` default. -/
structure StepStatus where
  status : String
  results : Option RMap
  deriving DecidableEq, Repr

/-- The mutable state `run_all` threads through its loop: the store, the
project state mapping, the status report dictionary, the registry records
already processed (their step objects mutated in place), the
`current_step` pointer and the most recent `metric_calculator.compile`
argument. -/
structure RunState where
  store : Store
  step_states : StepStates
  statuses : List (String × StepStatus)
  doneRecords : List StepRecord
  current_step : Option Step
  compiled_skipped : List String

/-- `ArtProject.fill_step_states`: write the results of the step into the
project state under (model name, name_with_id). -/
def fill_step_states (states : StepStates) (step : Step) : StepStates :=
  assocSet states (step.get_model_name, step.get_name_with_id) step.get_results

/-- The body of the execution branch of `run_all`: call the step, run the
checks, classify Completed or Failed (catching the error), and always
write the step results into the project state and the mutated step back
into the registry. -/
def runExec (rs : RunState) (rec : StepRecord) (step : Step) : RunState :=
  let out := stepCall rs.store rs.step_states step
  let step := out.1
  let completedStatus : StepStatus := { status := "Completed", results := some step.get_results }
  let failedStatus : StepStatus := { status := "Failed", results := some step.get_results }
  let rs :=
    match out.2.2 with
    | none =>
      match check_checks step rec.checks with
      | .ok _ =>
        { rs with store := out.2.1,
                  statuses := assocSet rs.statuses step.get_full_step_name completedStatus }
      | .error _ =>
        { rs with store := out.2.1,
                  statuses := assocSet rs.statuses step.get_full_step_name failedStatus }
    | some _ =>
      { rs with statuses := assocSet rs.statuses step.get_full_step_name failedStatus }
  { rs with step_states := fill_step_states rs.step_states step,
            doneRecords := rs.doneRecords ++ [{ rec with step := step }] }

/-- One iteration of the `run_all` loop: compile the skipped metrics, set
the current-step pointer, evaluate `check_if_must_be_run` (always — the
source condition is `not check_if_must_be_run(...) and not force_rerun`,
evaluated left to right), then either record the step as Skipped or stamp
`results["hash"]` and execute.  An exception escaping
`check_if_must_be_run` is not caught and aborts the whole loop. -/
def runStep (force_rerun : Bool) (rs : RunState) (rec : StepRecord) :
    Except PyErr RunState :=
  let rs := { rs with compiled_skipped := rec.skipped_metrics }
  let step := rec.step
  let checks := rec.checks
  let rs := { rs with current_step := some step }
  match check_if_must_be_run rs.store step checks with
  | .error e => .error e
  | .ok (must, step) =>
    if !must && !force_rerun then
      let skippedStatus : StepStatus := { status := "Skipped", results := some step.get_results }
      let rs := { rs with statuses := assocSet rs.statuses step.get_full_step_name skippedStatus }
      let rs := { rs with step_states := fill_step_states rs.step_states step }
      .ok { rs with doneRecords := rs.doneRecords ++ [{ rec with step := step }] }
    else
      let step := step.add_result "hash" (PyVal.str step.get_hash)
      .ok (runExec rs rec step)

/-- The `run_all` loop over the remaining registry records.  A `.ok`
result means the loop finished and the status report was printed; a
`.error` result is an uncaught exception: the loop stops, the remaining
records are never processed, and the report is not printed. -/
def runAllFrom (force_rerun : Bool) : List StepRecord → RunState → Except PyErr RunState
  | [], rs => .ok rs
  | rec :: rest, rs =>
    match runStep force_rerun rs rec with
    | .error e => .error e
    | .ok rs2 => runAllFrom force_rerun rest rs2

/-- `ArtProject.run_all`: run the loop from a fresh status dictionary on
the given registry, store and project state. -/
def run_all (force_rerun : Bool) (recs : List StepRecord) (store : Store)
    (states : StepStates) : Except PyErr RunState :=
  runAllFrom force_rerun recs
    { store := store, step_states := states, statuses := [], doneRecords := [],
      current_step := none, compiled_skipped := [] }

/-- `ArtProject.add_step`: append a record and give the step the new
registry length (a 1-based index) as its id. -/
def add_step (recs : List StepRecord) (step : Step) (checks : List Check)
    (skipped_metrics : List String) : List StepRecord :=
  recs ++ [{ step := step.set_step_id ((recs.length : Int) + 1),
             checks := checks, skipped_metrics := skipped_metrics }]

/-- Resolution of a Python list index: negative indices count from the
end; `none` models the `IndexError` for an out-of-range index. -/
def pyListIndex (len : Nat) (i : Int) : Option Nat :=
  if i < 0 then
    if 0 ≤ i + (len : Int) then some (i + (len : Int)).toNat else none
  else if i < (len : Int) then some i.toNat else none

/-- `ArtProject.replace_step`: repoint the record at `step_id` (default
`-1`, Python indexing) to the new step; when the default was used, give
the step the current registry length as its id, otherwise the given
index. -/
def replace_step (recs : List StepRecord) (step : Step) (step_id : Int) :
    Option (List StepRecord) :=
  match pyListIndex recs.length step_id with
  | none => none
  | some i =>
    match recs[i]? with
    | none => none
    | some oldRec =>
      let new_id := if step_id = -1 then (recs.length : Int) else step_id
      some (recs.set i { oldRec with step := step.set_step_id new_id })

/-! ### Basic lemmas about the association-list operations -/

theorem assocFind?_assocSet_self {α β : Type} [DecidableEq α] (l : List (α × β)) (k : α) (v : β) :
    assocFind? (assocSet l k v) k = some v := by
  induction l with
  | nil => simp [assocSet, assocFind?]
  | cons p rest ih =>
    obtain ⟨k0, v0⟩ := p
    by_cases h : k0 = k
    · simp [assocSet, assocFind?, h]
    · simp [assocSet, assocFind?, h, ih]

theorem mem_assocSet {α β : Type} [DecidableEq α] (l : List (α × β)) (k : α) (v : β)
    (p : α × β) (h : p ∈ assocSet l k v) : p = (k, v) ∨ p ∈ l := by
  induction l with
  | nil => simpa [assocSet] using h
  | cons q rest ih =>
    obtain ⟨k0, v0⟩ := q
    by_cases hk : k0 = k
    · simp [assocSet, hk] at h
      rcases h with h | h
      · exact Or.inl (by simp [h])
      · exact Or.inr (by simp [h])
    · simp [assocSet, hk] at h
      rcases h with h | h
      · exact Or.inr (by simp [h])
      · rcases ih h with h2 | h2
        · exact Or.inl h2
        · exact Or.inr (by simp [h2])

/-! ### Structure lemmas about steps -/

theorem step_eta (s : Step) : ({ s with results := s.results } : Step) = s := rfl

theorem get_step_id_update (s : Step) (r : RMap) :
    ({ s with results := r } : Step).get_step_id = s.get_step_id := rfl

theorem get_full_step_name_update (s : Step) (r : RMap) :
    ({ s with results := r } : Step).get_full_step_name = s.get_full_step_name := rfl

theorem get_model_name_update (s : Step) (r : RMap) :
    ({ s with results := r } : Step).get_model_name = s.get_model_name := rfl

theorem get_name_with_id_update (s : Step) (r : RMap) :
    ({ s with results := r } : Step).get_name_with_id = s.get_name_with_id := rfl

theorem get_hash_update (s : Step) (r : RMap) :
    ({ s with results := r } : Step).get_hash = s.get_hash := rfl

theorem add_result_eq (s : Step) (k : String) (v : PyVal) :
    s.add_result k v = { s with results := assocSet s.results k v } := rfl

/-! ### Lemmas about checks and the rerun decision -/

theorem check_checks_ok (s : Step) (checks : List Check)
    (h : ∀ c ∈ checks, (c s).is_positive = true) : check_checks s checks = .ok () := by
  induction checks with
  | nil => rfl
  | cons c rest ih =>
    have hc : (c s).is_positive = true := h c (by simp)
    simp only [check_checks, hc, if_true]
    exact ih fun c2 h2 => h c2 (by simp [h2])

theorem check_checks_error (s : Step) (checks : List Check)
    (h : ∃ c ∈ checks, (c s).is_positive = false) :
    ∃ m, check_checks s checks = .error m := by
  induction checks with
  | nil => simp at h
  | cons c rest ih =>
    by_cases hc : (c s).is_positive = true
    · obtain ⟨c0, hmem, hneg⟩ := h
      rcases List.mem_cons.mp hmem with h0 | h0
      · rw [h0] at hneg; rw [hneg] at hc; exact absurd hc (by simp)
      · obtain ⟨m, hm⟩ := ih ⟨c0, h0, hneg⟩
        exact ⟨m, by simp only [check_checks, hc, if_true]; exact hm⟩
    · refine ⟨"Check failed for step: " ++ s.name ++ ". Reason: " ++ (c s).error, ?_⟩
      simp [check_checks, hc]

theorem load_results_was_run (store : Store) (step s1 : Step)
    (h : step.load_results store = some s1) : step.was_run store = true := by
  unfold Step.load_results at h
  unfold Step.was_run
  cases hf : assocFind? store (step.get_step_id, step.name) with
  | none => rw [hf] at h; simp at h
  | some r => simp [hf]

theorem check_if_must_be_run_shape (store : Store) (step : Step) (checks : List Check)
    (b : Bool) (s1 : Step) (h : check_if_must_be_run store step checks = .ok (b, s1)) :
    ∃ r, s1 = { step with results := r } := by
  unfold check_if_must_be_run at h
  split at h
  · refine ⟨step.results, ?_⟩
    simp only [Except.ok.injEq, Prod.mk.injEq] at h
    rw [← h.2, step_eta]
  · split at h
    · simp at h
    · rename_i s2 hl
      unfold Step.load_results at hl
      obtain ⟨r, hfind, hs2⟩ := Option.map_eq_some'.mp hl
      split at h
      · simp only [Except.ok.injEq, Prod.mk.injEq] at h
        exact ⟨r, by rw [← h.2, ← hs2]⟩
      · split at h
        · simp at h
        · split at h <;>
            (simp only [Except.ok.injEq, Prod.mk.injEq] at h
             exact ⟨r, by rw [← h.2, ← hs2]⟩)

/-! ### Claim C1 -/

/-- Claim C1: the rerun decision returns true when the store has no
persisted entry for the step identifier; otherwise it loads the stored
results into the step and returns true when any check reports
non-positive; otherwise it returns true exactly when the current
fingerprint differs from the loaded `hash` entry and false when they
match — evaluated in this order with short-circuiting. -/
theorem check_if_must_be_run_protocol (store : Store) (step : Step) (checks : List Check) :
    (step.was_run store = false →
      check_if_must_be_run store step checks = .ok (true, step)) ∧
    (∀ s1, step.load_results store = some s1 →
      ((∃ c ∈ checks, (c s1).is_positive = false) →
        check_if_must_be_run store step checks = .ok (true, s1)) ∧
      ((∀ c ∈ checks, (c s1).is_positive = true) →
        ∀ saved, assocFind? s1.results "hash" = some saved →
          check_if_must_be_run store step checks =
            .ok (if PyVal.str s1.get_hash = saved then false else true, s1))) := by
  constructor
  · intro hw
    unfold check_if_must_be_run
    simp [hw]
  · intro s1 hl
    have hw : step.was_run store = true := load_results_was_run store step s1 hl
    constructor
    · intro hbad
      obtain ⟨m, hm⟩ := check_checks_error s1 checks hbad
      unfold check_if_must_be_run
      rw [hw]
      simp only [Bool.true_eq_false, if_false, hl, hm]
    · intro hgood saved hsaved
      have hok := check_checks_ok s1 checks hgood
      unfold check_if_must_be_run
      rw [hw]
      simp only [Bool.true_eq_false, if_false, hl, hok, hsaved]
      split <;> simp_all

/-- A concrete plain step used to exercise the rerun decision. -/
def c1Step : Step :=
  { idx := 1, name := "A", results := [], kind := .plain, currentHash := "h1",
    doFn := fun _ r => (r, none) }

/-- A store holding results for `c1Step` whose hash entry matches. -/
def c1Store : Store := [(("1", "A"), [("hash", PyVal.str "h1")])]

/-- The step `c1Step` after loading the stored results. -/
def c1Loaded : Step := { c1Step with results := [("hash", PyVal.str "h1")] }

/-- Witness for claim C1: on a present, check-passing, hash-matching
store entry the decision is false (skip) with the loaded step. -/
theorem check_if_must_be_run_protocol_witness :
    check_if_must_be_run c1Store c1Step [] = .ok (false, c1Loaded) := by
  have h := ((check_if_must_be_run_protocol c1Store c1Step []).2 c1Loaded rfl).2
    (by intro c hc; simp at hc) (PyVal.str "h1") rfl
  simpa using h

/-! ### Claim C2 -/

/-- A step whose `do` records an early result and then raises. -/
def c2Step : Step :=
  { idx := 1, name := "B", results := [], kind := .plain, currentHash := "h",
    doFn := fun _ r => (assocSet r "acc" (PyVal.num 1), some "boom") }

/-- Claim C2 counterexample: calling `c2Step` raises out of `do` after a
early result was recorded, and nothing is persisted — the resulting
store has no entry under (step id, step name), refuting the claim that
the call always persists the results. -/
theorem step_call_counterexample :
    (stepCall [] [] c2Step).2.2 = some (PyErr.stepError "boom") ∧
    (stepCall [] [] c2Step).1.results = [("acc", PyVal.num 1)] ∧
    assocFind? (stepCall [] [] c2Step).2.1 (c2Step.get_step_id, c2Step.name) = none :=
  ⟨rfl, rfl, rfl⟩

/-- Claim C2 amended: the call persists the results under
(step id, step name) exactly when `do` returns without raising; when `do`
raises, the store is unchanged (nothing is persisted) and the error
propagates, with the results populated so far left on the step. -/
theorem step_call_persists_iff_do_succeeds (store : Store) (states : StepStates) (s : Step) :
    ((stepCall store states s).2.2 = none →
      (stepCall store states s).2.1 =
        assocSet store (s.get_step_id, s.name) (stepCall store states s).1.results) ∧
    (∀ e, (stepCall store states s).2.2 = some e → (stepCall store states s).2.1 = store) ∧
    (stepCall store states s).1.results = (s.doFn states s.results).1 := by
  cases h : (s.doFn states s.results).2 <;> simp [stepCall, h, get_step_id_update]

/-- A concrete step whose `do` records a result and returns normally. -/
def c2GoodStep : Step :=
  { idx := 2, name := "C", results := [], kind := .plain, currentHash := "h",
    doFn := fun _ r => (assocSet r "acc" (PyVal.num 2), none) }

/-- Witness for the amended claim C2: a successful `do` leads to the
results being persisted under the step key. -/
theorem step_call_persists_iff_do_succeeds_witness :
    (stepCall [] [] c2GoodStep).2.2 = none ∧
    (stepCall [] [] c2GoodStep).2.1 =
      assocSet [] (c2GoodStep.get_step_id, c2GoodStep.name) (stepCall [] [] c2GoodStep).1.results :=
  ⟨rfl, (step_call_persists_iff_do_succeeds [] [] c2GoodStep).1 rfl⟩

/-! ### Claim C8 -/

/-- Claim C8: a plain step with index n and name N has identifier
`toString n` and full name `n_N`; a model step with nonempty model name M
has identifier `M_n` (and the bare index string when M is empty), and the
full name is always the identifier, an underscore and the step name. -/
theorem step_identifier_scheme (s : Step) :
    (s.kind = StepKind.plain →
      s.get_step_id = toString s.idx ∧
      s.get_full_step_name = toString s.idx ++ "_" ++ s.name) ∧
    (∀ M, s.kind = StepKind.model M →
      (M ≠ "" →
        s.get_step_id = M ++ "_" ++ toString s.idx ∧
        s.get_full_step_name = M ++ "_" ++ toString s.idx ++ "_" ++ s.name) ∧
      (M = "" → s.get_step_id = toString s.idx)) ∧
    s.get_full_step_name = s.get_step_id ++ "_" ++ s.name := by
  refine ⟨?_, ?_, rfl⟩
  · intro hk
    exact ⟨by simp [Step.get_step_id, hk],
           by simp [Step.get_full_step_name, Step.get_step_id, hk]⟩
  · intro M hk
    constructor
    · intro hM
      exact ⟨by simp [Step.get_step_id, Step.get_model_name, hk, hM],
             by simp [Step.get_full_step_name, Step.get_step_id, Step.get_model_name, hk, hM]⟩
    · intro hM
      simp [Step.get_step_id, Step.get_model_name, hk, hM]

/-- A plain step at registration index 3 named Preprocess. -/
def c8Plain : Step :=
  { idx := 3, name := "Preprocess", results := [], kind := .plain, currentHash := "h",
    doFn := fun _ r => (r, none) }

/-- A model step of model type Resnet at registration index 2. -/
def c8Model : Step :=
  { idx := 2, name := "Eval", results := [], kind := .model "Resnet", currentHash := "h",
    doFn := fun _ r => (r, none) }

/-- Witness for claim C8: the spec examples, a plain step at index 3 named
Preprocess and a Resnet model step at index 2. -/
theorem step_identifier_scheme_witness :
    c8Plain.get_step_id = toString (3 : Int) ∧
    c8Plain.get_full_step_name = toString (3 : Int) ++ "_" ++ "Preprocess" ∧
    c8Model.get_step_id = "Resnet" ++ "_" ++ toString (2 : Int) :=
  ⟨((step_identifier_scheme c8Plain).1 rfl).1,
   ((step_identifier_scheme c8Plain).1 rfl).2,
   (((step_identifier_scheme c8Model).2.1 "Resnet" rfl).1 (by decide)).1⟩

/-! ### Claim C9 -/

/-- Claim C9: with the default index `-1`, `replace_step` repoints the
last registry record to the new step without growing the registry and
gives the step id equal to the current registry length (not length plus
one); with an explicit index it repoints the record at that index and
reassigns that index as the step id, leaving every other record
unchanged. -/
theorem replace_step_spec (recs : List StepRecord) (s : Step) :
    (∀ lastRec, recs[recs.length - 1]? = some lastRec → 1 ≤ recs.length →
      ∃ out, replace_step recs s (-1) = some out ∧
        out.length = recs.length ∧
        out[recs.length - 1]? =
          some { lastRec with step := s.set_step_id (recs.length : Int) } ∧
        ∀ j : Nat, j ≠ recs.length - 1 → out[j]? = recs[j]?) ∧
    (∀ (i : Nat) oldRec, recs[i]? = some oldRec →
      ∃ out, replace_step recs s (i : Int) = some out ∧
        out.length = recs.length ∧
        out[i]? = some { oldRec with step := s.set_step_id (i : Int) } ∧
        ∀ j : Nat, j ≠ i → out[j]? = recs[j]?) := by
  constructor
  · intro lastRec hlast hlen
    have hlt : recs.length - 1 < recs.length := by omega
    have hidx : pyListIndex recs.length (-1) = some (recs.length - 1) := by
      unfold pyListIndex
      rw [if_pos (by norm_num), if_pos (by omega)]
      congr 1
      omega
    refine ⟨recs.set (recs.length - 1)
      { lastRec with step := s.set_step_id (recs.length : Int) }, ?_, ?_, ?_, ?_⟩
    · unfold replace_step
      rw [hidx]
      simp [hlast]
    · exact recs.length_set _ _
    · exact List.getElem?_set_self hlt
    · intro j hj
      exact List.getElem?_set_ne (fun h => hj h.symm)
  · intro i oldRec hold
    have hlt : i < recs.length := (List.getElem?_eq_some.mp hold).1
    have hidx : pyListIndex recs.length (i : Int) = some i := by
      unfold pyListIndex
      rw [if_neg (by omega), if_pos (by omega)]
      simp
    refine ⟨recs.set i { oldRec with step := s.set_step_id (i : Int) }, ?_, ?_, ?_, ?_⟩
    · unfold replace_step
      rw [hidx]
      simp only [hold]
      rw [if_neg (by omega)]
    · exact recs.length_set _ _
    · exact List.getElem?_set_self hlt
    · intro j hj
      exact List.getElem?_set_ne (fun h => hj h.symm)

/-- A two-record registry used to exercise `replace_step`. -/
def c9Recs : List StepRecord :=
  [{ step := c8Plain, checks := [], skipped_metrics := [] },
   { step := c8Model, checks := [], skipped_metrics := [] }]

/-- A replacement step for the registry above. -/
def c9New : Step :=
  { idx := 0, name := "New", results := [], kind := .plain, currentHash := "h",
    doFn := fun _ r => (r, none) }

/-- Witness for claim C9: replacing at the default index on a two-record
registry repoints the second record and gives the new step id 2. -/
theorem replace_step_spec_witness :
    ∃ out, replace_step c9Recs c9New (-1) = some out ∧
      out.length = c9Recs.length ∧
      out[c9Recs.length - 1]? =
        some { step := c9New.set_step_id (c9Recs.length : Int),
               checks := [], skipped_metrics := [] } ∧
      ∀ j : Nat, j ≠ c9Recs.length - 1 → out[j]? = c9Recs[j]? :=
  (replace_step_spec c9Recs c9New).1
    { step := c8Model, checks := [], skipped_metrics := [] } rfl (by decide)

/-! ### Branch equations for one loop iteration -/

theorem runStep_error_eq (force_rerun : Bool) (rs : RunState) (rec : StepRecord) (e : PyErr)
    (hdec : check_if_must_be_run rs.store rec.step rec.checks = .error e) :
    runStep force_rerun rs rec = .error e := by
  simp only [runStep, hdec]

theorem runStep_skip_eq (rs : RunState) (rec : StepRecord) (s1 : Step)
    (hdec : check_if_must_be_run rs.store rec.step rec.checks = .ok (false, s1)) :
    runStep false rs rec =
      .ok { rs with compiled_skipped := rec.skipped_metrics,
                    current_step := some rec.step,
                    statuses := assocSet rs.statuses s1.get_full_step_name
                      ({ status := "Skipped", results := some s1.get_results }),
                    step_states := fill_step_states rs.step_states s1,
                    doneRecords := rs.doneRecords ++ [{ rec with step := s1 }] } := by
  simp only [runStep, hdec]
  rfl

theorem runStep_exec_eq (force_rerun : Bool) (rs : RunState) (rec : StepRecord)
    (must : Bool) (s1 : Step)
    (hdec : check_if_must_be_run rs.store rec.step rec.checks = .ok (must, s1))
    (hexec : (!must && !force_rerun) = false) :
    runStep force_rerun rs rec =
      .ok (runExec { rs with compiled_skipped := rec.skipped_metrics,
                             current_step := some rec.step }
            rec (s1.add_result "hash" (PyVal.str s1.get_hash))) := by
  simp only [runStep, hdec, hexec]
  rfl

/-! ### Claim C10 -/

/-- Claim C10: when a step has a persisted entry whose loaded results
pass the checks but contain no hash key, the rerun decision raises a
KeyError outside the per-step error boundary: `run_all` terminates with
the uncaught error, so no status is recorded for this or any later step
and the end-of-run report (printed only when the loop finishes) is not
produced.  In this embedding the aborted run is the `.error` outcome,
which carries no status dictionary, no processed records and no report. -/
theorem run_all_missing_hash_uncaught (force_rerun : Bool) (rs : RunState)
    (rec : StepRecord) (rest : List StepRecord) (s1 : Step)
    (hload : rec.step.load_results rs.store = some s1)
    (hchecks : ∀ c ∈ rec.checks, (c s1).is_positive = true)
    (hnohash : assocFind? s1.results "hash" = none) :
    runStep force_rerun rs rec = .error (PyErr.keyError "hash") ∧
    runAllFrom force_rerun (rec :: rest) rs = .error (PyErr.keyError "hash") := by
  have hw := load_results_was_run rs.store rec.step s1 hload
  have hdec : check_if_must_be_run rs.store rec.step rec.checks =
      .error (PyErr.keyError "hash") := by
    unfold check_if_must_be_run
    rw [hw]
    simp only [Bool.true_eq_false, if_false, hload,
      check_checks_ok s1 rec.checks hchecks, hnohash]
  have hstep := runStep_error_eq force_rerun rs rec (PyErr.keyError "hash") hdec
  exact ⟨hstep, by simp only [runAllFrom, hstep]⟩

/-- A plain step whose persisted results lack the hash entry. -/
def c10Step : Step :=
  { idx := 1, name := "D", results := [], kind := .plain, currentHash := "h",
    doFn := fun _ r => (r, none) }

/-- A store entry for `c10Step` with no hash key. -/
def c10Store : Store := [(("1", "D"), [("acc", PyVal.num 3)])]

/-- A registry record for `c10Step` with no checks. -/
def c10Rec : StepRecord := { step := c10Step, checks := [], skipped_metrics := [] }

/-- A run state holding `c10Store`. -/
def c10RS : RunState :=
  { store := c10Store, step_states := [], statuses := [], doneRecords := [],
    current_step := none, compiled_skipped := [] }

/-- Witness for claim C10: the concrete hash-free store entry makes the
loop abort with the KeyError. -/
theorem run_all_missing_hash_uncaught_witness :
    runStep false c10RS c10Rec = .error (PyErr.keyError "hash") ∧
    runAllFrom false [c10Rec] c10RS = .error (PyErr.keyError "hash") :=
  run_all_missing_hash_uncaught false c10RS c10Rec []
    { c10Step with results := [("acc", PyVal.num 3)] } rfl
    (by intro c hc; simp [c10Rec] at hc) rfl

/-! ### Claim C4 -/

theorem stepCall_fst_eq (store : Store) (states : StepStates) (s : Step) :
    (stepCall store states s).1 = { s with results := (s.doFn states s.results).1 } := by
  cases h : (s.doFn states s.results).2 <;> simp [stepCall, h]

theorem runExec_fail_statuses (rs : RunState) (rec : StepRecord) (step : Step)
    (out : Step × Store × Option PyErr)
    (hout : stepCall rs.store rs.step_states step = out)
    (hfail : out.2.2 ≠ none ∨ (∃ msg, check_checks out.1 rec.checks = .error msg)) :
    (runExec rs rec step).statuses =
      assocSet rs.statuses out.1.get_full_step_name
        ({ status := "Failed", results := some out.1.get_results }) := by
  obtain ⟨os, ostore, oerr⟩ := out
  cases oerr with
  | some e => simp [runExec, hout]
  | none =>
    rcases hfail with hbad | ⟨msg, hchk⟩
    · exact absurd rfl hbad
    · simp only at hchk
      simp [runExec, hout, hchk]

/-- Claim C4: when the execution attempt of a step fails — the call
raises, or the post-execution acceptance checks raise — the step is
recorded as Failed together with a snapshot of its results, the loop
iteration still returns normally, and processing the remaining records
continues exactly as from the resulting state: `run_all` does not abort
because of a per-step failure. -/
theorem runStep_failure_contained (force_rerun : Bool) (rs : RunState)
    (rec : StepRecord) (rest : List StepRecord) (must : Bool) (s1 : Step)
    (out : Step × Store × Option PyErr)
    (hdec : check_if_must_be_run rs.store rec.step rec.checks = .ok (must, s1))
    (hexec : (!must && !force_rerun) = false)
    (hout : stepCall rs.store rs.step_states (s1.add_result "hash" (PyVal.str s1.get_hash)) = out)
    (hfail : out.2.2 ≠ none ∨ (∃ msg, check_checks out.1 rec.checks = .error msg)) :
    ∃ rs2, runStep force_rerun rs rec = .ok rs2 ∧
      runAllFrom force_rerun (rec :: rest) rs = runAllFrom force_rerun rest rs2 ∧
      assocFind? rs2.statuses rec.step.get_full_step_name =
        some { status := "Failed", results := some out.1.get_results } := by
  obtain ⟨r1, hs1⟩ := check_if_must_be_run_shape rs.store rec.step rec.checks must s1 hdec
  have hname : out.1.get_full_step_name = rec.step.get_full_step_name := by
    rw [← hout, stepCall_fst_eq, get_full_step_name_update, add_result_eq,
      get_full_step_name_update, hs1, get_full_step_name_update]
  have hrs := runStep_exec_eq force_rerun rs rec must s1 hdec hexec
  refine ⟨_, hrs, by simp only [runAllFrom, hrs], ?_⟩
  have hst := runExec_fail_statuses
    { rs with compiled_skipped := rec.skipped_metrics, current_step := some rec.step }
    rec (s1.add_result "hash" (PyVal.str s1.get_hash)) out hout hfail
  rw [hst, hname]
  exact assocFind?_assocSet_self _ _ _

/-- A concrete plain step whose `do` raises. -/
def c4Step : Step :=
  { idx := 1, name := "E", results := [], kind := .plain, currentHash := "h",
    doFn := fun _ r => (r, some "boom") }

/-- A registry record for `c4Step` with no checks. -/
def c4Rec : StepRecord := { step := c4Step, checks := [], skipped_metrics := [] }

/-- An empty initial run state. -/
def c4RS : RunState :=
  { store := [], step_states := [], statuses := [], doneRecords := [],
    current_step := none, compiled_skipped := [] }

/-- Witness for claim C4: a step that raises during execution ends up
Failed and the loop continues from the resulting state. -/
theorem runStep_failure_contained_witness :
    ∃ rs2, runStep false c4RS c4Rec = .ok rs2 ∧
      runAllFrom false [c4Rec] c4RS = runAllFrom false [] rs2 ∧
      assocFind? rs2.statuses c4Step.get_full_step_name =
        some { status := "Failed", results := some [("hash", PyVal.str "h")] } :=
  runStep_failure_contained false c4RS c4Rec [] true c4Step
    ({ c4Step with results := [("hash", PyVal.str "h")] }, [], some (PyErr.stepError "boom"))
    rfl rfl rfl (Or.inl (by simp))

/-! ### Claim C5 -/

theorem stepCall_full_name (store : Store) (states : StepStates) (s : Step) :
    (stepCall store states s).1.get_full_step_name = s.get_full_step_name := by
  rw [stepCall_fst_eq, get_full_step_name_update]

theorem runExec_statuses (rs : RunState) (rec : StepRecord) (step : Step) :
    ∃ st : StepStatus,
      (runExec rs rec step).statuses =
        assocSet rs.statuses (stepCall rs.store rs.step_states step).1.get_full_step_name st ∧
      (st.status = "Completed" ∨ st.status = "Failed") := by
  cases h : (stepCall rs.store rs.step_states step).2.2 with
  | some e =>
    refine ⟨{ status := "Failed",
              results := some (stepCall rs.store rs.step_states step).1.get_results },
      ?_, Or.inr rfl⟩
    simp [runExec, h]
  | none =>
    cases h2 : check_checks (stepCall rs.store rs.step_states step).1 rec.checks with
    | ok u =>
      refine ⟨{ status := "Completed",
                results := some (stepCall rs.store rs.step_states step).1.get_results },
        ?_, Or.inl rfl⟩
      simp [runExec, h, h2]
    | error m =>
      refine ⟨{ status := "Failed",
                results := some (stepCall rs.store rs.step_states step).1.get_results },
        ?_, Or.inr rfl⟩
      simp [runExec, h, h2]

/-- A store entry with results but no hash key, for the force-rerun
counterexample. -/
def c5Step : Step :=
  { idx := 1, name := "F", results := [], kind := .plain, currentHash := "h",
    doFn := fun _ r => (r, none) }

/-- The persisted entry for `c5Step` lacks the hash key. -/
def c5Store : Store := [(("1", "F"), [("acc", PyVal.num 7)])]

/-- A registry record for `c5Step` with no checks. -/
def c5Rec : StepRecord := { step := c5Step, checks := [], skipped_metrics := [] }

/-- Claim C5 counterexample: with forceRerun true the rerun decision is
still evaluated first (the source condition evaluates it before looking
at forceRerun) — here it raises the missing-hash KeyError, `run_all`
aborts, and the step is never executed.  This refutes both that
execution is mandatory for every registered step under forceRerun and
that the rerun decision is evaluated only when forceRerun is false. -/
theorem run_all_force_rerun_counterexample :
    run_all true [c5Rec] c5Store [] = .error (PyErr.keyError "hash") := rfl

/-- Claim C5 amended: with forceRerun true the skip branch is never
taken — every step whose rerun decision completes without raising is
executed regardless of the verdict, ending Completed or Failed, never
Skipped — but the rerun decision is still evaluated even when forceRerun
is true, and an exception raised there propagates unchanged. -/
theorem run_all_force_rerun_executes (rs : RunState) (rec : StepRecord) :
    (∀ must s1, check_if_must_be_run rs.store rec.step rec.checks = .ok (must, s1) →
      ∃ rs2, runStep true rs rec = .ok rs2 ∧
        ∃ st, assocFind? rs2.statuses rec.step.get_full_step_name = some st ∧
          (st.status = "Completed" ∨ st.status = "Failed")) ∧
    (∀ e, check_if_must_be_run rs.store rec.step rec.checks = .error e →
      runStep true rs rec = .error e) := by
  constructor
  · intro must s1 hdec
    obtain ⟨r1, hs1⟩ := check_if_must_be_run_shape rs.store rec.step rec.checks must s1 hdec
    have hrs := runStep_exec_eq true rs rec must s1 hdec (by simp)
    refine ⟨_, hrs, ?_⟩
    obtain ⟨st, hstat, hcf⟩ := runExec_statuses
      { rs with compiled_skipped := rec.skipped_metrics, current_step := some rec.step }
      rec (s1.add_result "hash" (PyVal.str s1.get_hash))
    refine ⟨st, ?_, hcf⟩
    rw [hstat, stepCall_full_name, add_result_eq, get_full_step_name_update, hs1,
      get_full_step_name_update]
    exact assocFind?_assocSet_self _ _ _
  · intro e hdec
    exact runStep_error_eq true rs rec e hdec

/-- A never-persisted step executed under force rerun. -/
def c5Exec : Step :=
  { idx := 2, name := "G", results := [], kind := .plain, currentHash := "h",
    doFn := fun _ r => (r, none) }

/-- A registry record for `c5Exec`. -/
def c5ExecRec : StepRecord := { step := c5Exec, checks := [], skipped_metrics := [] }

/-- An empty run state for the force-rerun witness. -/
def c5RS : RunState :=
  { store := [], step_states := [], statuses := [], doneRecords := [],
    current_step := none, compiled_skipped := [] }

/-- Witness for the amended claim C5. -/
theorem run_all_force_rerun_executes_witness :
    ∃ rs2, runStep true c5RS c5ExecRec = .ok rs2 ∧
      ∃ st, assocFind? rs2.statuses c5Exec.get_full_step_name = some st ∧
        (st.status = "Completed" ∨ st.status = "Failed") :=
  (run_all_force_rerun_executes c5RS c5ExecRec).1 true c5Exec rfl

/-! ### Claim C6 -/

/-- Claim C6: whenever a step is about to be executed, `run_all` first
sets the reserved hash key of the step results to the current fingerprint
and invokes the call on exactly that stamped step, so at the start of
every execution attempt results["hash"] equals the fingerprint the rerun
decision later compares (`get_hash`, which `load_results` leaves
unchanged). -/
theorem run_all_stamps_hash_before_execute (force_rerun : Bool) (rs : RunState)
    (rec : StepRecord) (must : Bool) (s1 : Step)
    (hdec : check_if_must_be_run rs.store rec.step rec.checks = .ok (must, s1))
    (hexec : (!must && !force_rerun) = false) :
    runStep force_rerun rs rec =
      .ok (runExec { rs with compiled_skipped := rec.skipped_metrics,
                             current_step := some rec.step }
            rec (s1.add_result "hash" (PyVal.str s1.get_hash))) ∧
    assocFind? (s1.add_result "hash" (PyVal.str s1.get_hash)).results "hash" =
      some (PyVal.str s1.get_hash) ∧
    s1.get_hash = rec.step.get_hash := by
  obtain ⟨r1, hs1⟩ := check_if_must_be_run_shape rs.store rec.step rec.checks must s1 hdec
  refine ⟨runStep_exec_eq force_rerun rs rec must s1 hdec hexec, ?_, ?_⟩
  · rw [add_result_eq]
    exact assocFind?_assocSet_self _ _ _
  · rw [hs1, get_hash_update]

/-- A concrete plain step for the hash-stamping witness. -/
def c6Step : Step :=
  { idx := 1, name := "H", results := [], kind := .plain, currentHash := "h6",
    doFn := fun _ r => (r, none) }

/-- A registry record for `c6Step`. -/
def c6Rec : StepRecord := { step := c6Step, checks := [], skipped_metrics := [] }

/-- An empty run state for the hash-stamping witness. -/
def c6RS : RunState :=
  { store := [], step_states := [], statuses := [], doneRecords := [],
    current_step := none, compiled_skipped := [] }

/-- Witness for claim C6. -/
theorem run_all_stamps_hash_before_execute_witness :
    runStep false c6RS c6Rec =
      .ok (runExec { c6RS with compiled_skipped := c6Rec.skipped_metrics,
                               current_step := some c6Rec.step }
            c6Rec (c6Step.add_result "hash" (PyVal.str c6Step.get_hash))) ∧
    assocFind? (c6Step.add_result "hash" (PyVal.str c6Step.get_hash)).results "hash" =
      some (PyVal.str c6Step.get_hash) ∧
    c6Step.get_hash = c6Rec.step.get_hash :=
  run_all_stamps_hash_before_execute false c6RS c6Rec true c6Step rfl rfl

/-! ### Claim C7 -/

theorem runExec_states_done (rs : RunState) (rec : StepRecord) (step : Step) :
    (runExec rs rec step).step_states =
      fill_step_states rs.step_states (stepCall rs.store rs.step_states step).1 ∧
    (runExec rs rec step).doneRecords =
      rs.doneRecords ++ [{ rec with step := (stepCall rs.store rs.step_states step).1 }] := by
  cases h : (stepCall rs.store rs.step_states step).2.2 with
  | some e => constructor <;> simp [runExec, h]
  | none =>
    cases h2 : check_checks (stepCall rs.store rs.step_states step).1 rec.checks with
    | ok u => constructor <;> simp [runExec, h, h2]
    | error m => constructor <;> simp [runExec, h, h2]

/-- Claim C7: every loop iteration that returns normally — whether the
step was Skipped, Completed or Failed — appends the processed step to the
registry records and has written its latest results into the project
state under its model name and its index_name label before the runner
proceeds to the next record. -/
theorem runStep_fills_step_states (force_rerun : Bool) (rs rs2 : RunState)
    (rec : StepRecord) (h : runStep force_rerun rs rec = .ok rs2) :
    ∃ s2, rs2.doneRecords = rs.doneRecords ++ [{ rec with step := s2 }] ∧
      assocFind? rs2.step_states (s2.get_model_name, s2.get_name_with_id) =
        some s2.get_results ∧
      s2.get_model_name = rec.step.get_model_name ∧
      s2.get_name_with_id = rec.step.get_name_with_id := by
  cases hdec : check_if_must_be_run rs.store rec.step rec.checks with
  | error e =>
    rw [runStep_error_eq force_rerun rs rec e hdec] at h
    exact absurd h (by simp)
  | ok p =>
    obtain ⟨must, s1⟩ := p
    obtain ⟨r1, hs1⟩ := check_if_must_be_run_shape rs.store rec.step rec.checks must s1 hdec
    cases hcond : (!must && !force_rerun) with
    | true =>
      have hm : must = false := by revert hcond; cases must <;> simp
      have hf : force_rerun = false := by revert hcond; cases force_rerun <;> simp
      subst hm
      subst hf
      rw [runStep_skip_eq rs rec s1 hdec] at h
      injection h with h
      subst h
      refine ⟨s1, rfl, ?_, ?_, ?_⟩
      · exact assocFind?_assocSet_self _ _ _
      · rw [hs1, get_model_name_update]
      · rw [hs1, get_name_with_id_update]
    | false =>
      rw [runStep_exec_eq force_rerun rs rec must s1 hdec hcond] at h
      injection h with h
      subst h
      obtain ⟨hstates, hdone⟩ := runExec_states_done
        { rs with compiled_skipped := rec.skipped_metrics, current_step := some rec.step }
        rec (s1.add_result "hash" (PyVal.str s1.get_hash))
      refine ⟨_, hdone, ?_, ?_, ?_⟩
      · rw [hstates]
        unfold fill_step_states
        exact assocFind?_assocSet_self _ _ _
      · rw [stepCall_fst_eq, get_model_name_update, add_result_eq, get_model_name_update,
          hs1, get_model_name_update]
      · rw [stepCall_fst_eq, get_name_with_id_update, add_result_eq, get_name_with_id_update,
          hs1, get_name_with_id_update]

/-- A concrete plain step for the project-state witness. -/
def c7Step : Step :=
  { idx := 1, name := "K", results := [], kind := .plain, currentHash := "h",
    doFn := fun _ r => (r, none) }

/-- A registry record for `c7Step`. -/
def c7Rec : StepRecord := { step := c7Step, checks := [], skipped_metrics := [] }

/-- An empty run state for the project-state witness. -/
def c7RS : RunState :=
  { store := [], step_states := [], statuses := [], doneRecords := [],
    current_step := none, compiled_skipped := [] }

/-- Witness for claim C7. -/
theorem runStep_fills_step_states_witness :
    ∃ rs2, runStep false c7RS c7Rec = .ok rs2 ∧
      ∃ s2, rs2.doneRecords = c7RS.doneRecords ++ [{ c7Rec with step := s2 }] ∧
        assocFind? rs2.step_states (s2.get_model_name, s2.get_name_with_id) =
          some s2.get_results ∧
        s2.get_model_name = c7Rec.step.get_model_name ∧
        s2.get_name_with_id = c7Rec.step.get_name_with_id :=
  ⟨_, runStep_exec_eq false c7RS c7Rec true c7Step rfl rfl,
   runStep_fills_step_states false c7RS _ c7Rec
     (runStep_exec_eq false c7RS c7Rec true c7Step rfl rfl)⟩

/-! ### Claim C3 -/

theorem runAllFrom_all_skip (recs : List StepRecord) : ∀ (rs : RunState),
    (∀ r ∈ recs,
      assocFind? rs.store (r.step.get_step_id, r.step.name) = some r.step.results ∧
      (∀ c ∈ r.checks, (c r.step).is_positive = true) ∧
      assocFind? r.step.results "hash" = some (PyVal.str r.step.get_hash)) →
    ∃ rs2, runAllFrom false recs rs = .ok rs2 ∧
      rs2.store = rs.store ∧
      rs2.doneRecords = rs.doneRecords ++ recs ∧
      (∀ p ∈ rs2.statuses, p.2.status = "Skipped" ∨ p ∈ rs.statuses) := by
  induction recs with
  | nil =>
    intro rs h
    exact ⟨rs, rfl, rfl, by simp, fun p hp => Or.inr hp⟩
  | cons r rest ih =>
    intro rs h
    obtain ⟨h1, h2, h3⟩ := h r (by simp)
    have hload : r.step.load_results rs.store = some r.step := by
      unfold Step.load_results
      rw [h1]
      rfl
    have hdec : check_if_must_be_run rs.store r.step r.checks = .ok (false, r.step) := by
      have hp := ((check_if_must_be_run_protocol rs.store r.step r.checks).2 r.step hload).2
        h2 (PyVal.str r.step.get_hash) h3
      simpa using hp
    have hskip := runStep_skip_eq rs r r.step hdec
    obtain ⟨rs2, hrun, hstore, hdone, hstat⟩ := ih
      { rs with compiled_skipped := r.skipped_metrics,
                current_step := some r.step,
                statuses := assocSet rs.statuses r.step.get_full_step_name
                  ({ status := "Skipped", results := some r.step.get_results }),
                step_states := fill_step_states rs.step_states r.step,
                doneRecords := rs.doneRecords ++ [{ r with step := r.step }] }
      (fun r2 hr2 => h r2 (by simp [hr2]))
    refine ⟨rs2, ?_, hstore, ?_, ?_⟩
    · simp only [runAllFrom, hskip]
      exact hrun
    · rw [hdone]
      simp
    · intro p hp
      rcases hstat p hp with hS | hmem
      · exact Or.inl hS
      · rcases mem_assocSet _ _ _ p hmem with he | hm2
        · exact Or.inl (by rw [he])
        · exact Or.inr hm2

/-- Claim C3: starting from a store in which every registered step is
persisted with exactly its own results, whose checks pass on those
results, and whose stored hash entry equals its current fingerprint (the
state a completed first run leaves behind when no definition changed), a
`run_all` with forceRerun false classifies every step Skipped, leaves the
store untouched, returns the registry unchanged, and every step carries
exactly the results persisted in the store — loaded, not recomputed. -/
theorem run_all_second_run_all_skipped (recs : List StepRecord) (store : Store)
    (states : StepStates)
    (h : ∀ r ∈ recs,
      assocFind? store (r.step.get_step_id, r.step.name) = some r.step.results ∧
      (∀ c ∈ r.checks, (c r.step).is_positive = true) ∧
      assocFind? r.step.results "hash" = some (PyVal.str r.step.get_hash)) :
    ∃ rs2, run_all false recs store states = .ok rs2 ∧
      rs2.store = store ∧
      rs2.doneRecords = recs ∧
      (∀ p ∈ rs2.statuses, p.2.status = "Skipped") ∧
      (∀ r ∈ rs2.doneRecords,
        assocFind? rs2.store (r.step.get_step_id, r.step.name) = some r.step.results) := by
  obtain ⟨rs2, hrun, hstore, hdone, hstat⟩ := runAllFrom_all_skip recs
    { store := store, step_states := states, statuses := [], doneRecords := [],
      current_step := none, compiled_skipped := [] } h
  have hdone2 : rs2.doneRecords = recs := by simpa using hdone
  refine ⟨rs2, hrun, hstore, hdone2, ?_, ?_⟩
  · intro p hp
    rcases hstat p hp with hS | hmem
    · exact hS
    · simp at hmem
  · intro r hr
    rw [hdone2] at hr
    rw [hstore]
    exact (h r hr).1

/-- A step whose persisted results match its fingerprint, for the
idempotence witness. -/
def c3Step : Step :=
  { idx := 1, name := "M", results := [("hash", PyVal.str "h3")], kind := .plain,
    currentHash := "h3", doFn := fun _ r => (r, none) }

/-- The store left behind by a completed first run of `c3Step`. -/
def c3Store : Store := [(("1", "M"), [("hash", PyVal.str "h3")])]

/-- A registry record for `c3Step`. -/
def c3Rec : StepRecord := { step := c3Step, checks := [], skipped_metrics := [] }

/-- Witness for claim C3. -/
theorem run_all_second_run_all_skipped_witness :
    ∃ rs2, run_all false [c3Rec] c3Store [] = .ok rs2 ∧
      rs2.store = c3Store ∧
      rs2.doneRecords = [c3Rec] ∧
      (∀ p ∈ rs2.statuses, p.2.status = "Skipped") ∧
      (∀ r ∈ rs2.doneRecords,
        assocFind? rs2.store (r.step.get_step_id, r.step.name) = some r.step.results) :=
  run_all_second_run_all_skipped [c3Rec] c3Store [] (by
    intro r hr
    simp only [List.mem_singleton] at hr
    subst hr
    refine ⟨rfl, ?_, rfl⟩
    intro c hc
    simp [c3Rec] at hc)
